import Mathlib

/-!
Shallow embedding of the DocumInt core (document-structure extractor and
hybrid retrieval engine) together with theorems settling the claims about
its specification.

The embedding translates the Python sources:
  Backend/pdf_extractor.py            (outline extraction)
  Backend/src/extract/content_chunker.py  (chunk segmentation)
  Backend/src/retrieval/hybrid_retriever.py (hybrid retrieval)

Modelling conventions:
  - Python floats are modelled as rationals.
  - Python functions that can raise are modelled with Except; the error
    string names the Python exception.
  - Python None-or-value results are modelled with Option.
  - Regular-expression predicates and the SequenceMatcher similarity
    ratio are modelled as function parameters: every theorem that uses
    them is proved for an arbitrary choice of those functions, which
    includes the concrete ones used by the Python code.
-/

namespace DocumInt

/-- Heading levels produced by the extractor (the strings "H1", "H2", "H3"). -/
inductive Level where
  | H1
  | H2
  | H3
deriving DecidableEq, Repr, Inhabited

/-- One outline item, the dict \x7b"level": ..., "text": ..., "page": ...\x7d. -/
structure OutlineEntry where
  level : Level
  text : String
  page : Int
deriving DecidableEq, Repr, Inhabited

/-! ## Hierarchy validation (PDFOutlineExtractor.validate_hierarchy) -/

/--
Translation of the loop body of validate_hierarchy.  The Python code keeps a
dict of counters level_counts = \x7b"H1": h1, "H2": h2, "H3": h3\x7d and the
growing list validated; the argument isEmpty tracks the Python test
"not validated" (whether nothing has been accepted yet).
-/
def validateHierarchyGo (h1 h2 h3 : Nat) (isEmpty : Bool) :
    List OutlineEntry → List OutlineEntry
  | [] => []
  | item :: rest =>
    match item.level with
    | Level.H1 =>
      -- an H1 is always accepted and resets the counters to \x7b1,0,0\x7d
      item :: validateHierarchyGo 1 0 0 false rest
    | Level.H2 =>
      if h1 > 0 ∨ isEmpty = true then
        -- accepted: H2 counter incremented, H3 counter reset
        item :: validateHierarchyGo h1 (h2 + 1) 0 false rest
      else
        validateHierarchyGo h1 h2 h3 isEmpty rest
    | Level.H3 =>
      if h2 > 0 then
        item :: validateHierarchyGo h1 h2 (h3 + 1) false rest
      else
        validateHierarchyGo h1 h2 h3 isEmpty rest

/-- PDFOutlineExtractor.validate_hierarchy (pdf_extractor.py lines 570-594). -/
def validateHierarchy (outline : List OutlineEntry) : List OutlineEntry :=
  match outline with
  | [] => []
  | _ => validateHierarchyGo 0 0 0 true outline

/--
Checker for the hierarchy invariant stated by the spec: walking the list with
seenH1 = "an H1 occurs earlier", seenH2 = "an H2 occurs since the most recent
H1 (or since the start)", atStart = "no entry occurs earlier", every H2 must
have an earlier H1 or be the first entry, and every H3 must have an H2 since
the most recent H1 (or since the start when there is no H1 yet).
-/
def hierarchyOk (seenH1 seenH2 atStart : Bool) : List OutlineEntry → Bool
  | [] => true
  | item :: rest =>
    match item.level with
    | Level.H1 => hierarchyOk true false false rest
    | Level.H2 => (seenH1 || atStart) && hierarchyOk seenH1 true false rest
    | Level.H3 => seenH2 && hierarchyOk seenH1 seenH2 false rest

theorem validateHierarchyGo_ok (l : List OutlineEntry) :
    ∀ (h1 h2 h3 : Nat) (isEmpty s1 s2 : Bool),
      (0 < h1 ↔ s1 = true) → (0 < h2 ↔ s2 = true) →
      hierarchyOk s1 s2 isEmpty (validateHierarchyGo h1 h2 h3 isEmpty l) = true := by
  induction l with
  | nil => intro h1 h2 h3 isEmpty s1 s2 _ _; rfl
  | cons item rest ih =>
    intro h1 h2 h3 isEmpty s1 s2 hs1 hs2
    cases hl : item.level with
    | H1 =>
      simp only [validateHierarchyGo, hl, hierarchyOk]
      exact ih 1 0 0 false true false (by simp) (by simp)
    | H2 =>
      simp only [validateHierarchyGo, hl]
      by_cases hc : h1 > 0 ∨ isEmpty = true
      · simp only [if_pos hc, hierarchyOk, hl, Bool.and_eq_true, Bool.or_eq_true]
        constructor
        · rcases hc with hc | hc
          · exact Or.inl (hs1.mp hc)
          · exact Or.inr hc
        · exact ih h1 (h2 + 1) 0 false s1 true hs1 (by simp)
      · simp only [if_neg hc]
        exact ih h1 h2 h3 isEmpty s1 s2 hs1 hs2
    | H3 =>
      simp only [validateHierarchyGo, hl]
      by_cases hc : h2 > 0
      · simp only [if_pos hc, hierarchyOk, hl, Bool.and_eq_true]
        exact ⟨hs2.mp hc, ih h1 h2 (h3 + 1) false s1 s2 hs1 hs2⟩
      · simp only [if_neg hc]
        exact ih h1 h2 h3 isEmpty s1 s2 hs1 hs2

/--
C2: for every input list of outline entries, the list returned by hierarchy
validation satisfies the nesting invariant: no H3 entry occurs unless at least
one H2 entry has been accepted since the most recently accepted H1 (or since
the start if no H1 yet), and no H2 entry occurs unless at least one H1 has
been accepted before it or the H2 is the first entry of the validated list.
-/
theorem validateHierarchy_invariant (outline : List OutlineEntry) :
    hierarchyOk false false true (validateHierarchy outline) = true := by
  cases outline with
  | nil => rfl
  | cons item rest =>
    show hierarchyOk false false true
        (validateHierarchyGo 0 0 0 true (item :: rest)) = true
    exact validateHierarchyGo_ok (item :: rest) 0 0 0 true false false
      (by simp) (by simp)

/-! ## Hybrid retriever: domains, weights and score fusion
    (hybrid_retriever.py) -/

/-- One content chunk as produced by the chunker: the dict
\x7b"heading", "content", "pdf_name", "page_number"\x7d. -/
structure Chunk where
  heading : String
  content : String
  pdf_name : String
  page_number : Nat
deriving DecidableEq, Repr, Inhabited

/-- The closed set of retrieval domains (HybridRetriever.domain). -/
inductive Domain where
  | travel
  | research
  | business
  | culinary
  | general
deriving DecidableEq, Repr, Inhabited

/-- HybridRetriever.bm25_params: the pair (k1, b) per domain (lines 73-79). -/
def bm25Params : Domain → ℚ × ℚ
  | Domain.travel => (12/10, 75/100)
  | Domain.research => (15/10, 6/10)
  | Domain.business => (1, 8/10)
  | Domain.culinary => (13/10, 7/10)
  | Domain.general => (12/10, 75/100)

/-- HybridRetriever.hybrid_weights: the pair (bm25 weight, embedding weight)
per domain (lines 82-88). -/
def hybridWeights : Domain → ℚ × ℚ
  | Domain.travel => (6/10, 4/10)
  | Domain.research => (4/10, 6/10)
  | Domain.business => (5/10, 5/10)
  | Domain.culinary => (7/10, 3/10)
  | Domain.general => (6/10, 4/10)

/-- The fused score computed in search_top_k (lines 259-262):
weights["bm25"] * bm25_score + weights["embedding"] * embedding_score. -/
def fuseScore (d : Domain) (bm25Score embeddingScore : ℚ) : ℚ :=
  (hybridWeights d).1 * bm25Score + (hybridWeights d).2 * embeddingScore

/--
C5: for every domain and every lexical score and semantic score each in
[0,1], the fused hybrid score lies in [0,1], and each domain's fixed weight
pair sums to 1.
-/
theorem fuseScore_bounds (d : Domain) (lex sem : ℚ)
    (hl0 : 0 ≤ lex) (hl1 : lex ≤ 1) (hs0 : 0 ≤ sem) (hs1 : sem ≤ 1) :
    (0 ≤ fuseScore d lex sem ∧ fuseScore d lex sem ≤ 1) ∧
      (hybridWeights d).1 + (hybridWeights d).2 = 1 := by
  cases d <;>
    (refine ⟨⟨?_, ?_⟩, by norm_num [hybridWeights]⟩ <;>
      simp only [fuseScore, hybridWeights] <;> nlinarith)

/-- Witness for C5 at the travel domain with both scores 1/2. -/
theorem fuseScore_bounds_witness :
    (0 ≤ fuseScore Domain.travel (1/2) (1/2) ∧
        fuseScore Domain.travel (1/2) (1/2) ≤ 1) ∧
      (hybridWeights Domain.travel).1 + (hybridWeights Domain.travel).2 = 1 :=
  fuseScore_bounds Domain.travel (1/2) (1/2) (by norm_num) (by norm_num)
    (by norm_num) (by norm_num)

/-! ## Diversity-aware top-k selection (HybridRetriever.diverse_top_k) -/

/--
Python max(remaining, key=lambda i: scores[i]) over a nonempty list: walk the
list keeping the current best, replacing it only on a strictly greater score,
so the first index attaining the maximum wins.
-/
def argmaxFirst (scores : List ℚ) (best : Nat) : List Nat → Nat
  | [] => best
  | i :: rest =>
    argmaxFirst scores (if scores.getD best 0 < scores.getD i 0 then i else best) rest

/--
The suppression test of diverse_top_k (lines 193-194): a remaining chunk is
dropped when it comes from the same source document as the just-selected chunk
or its heading similarity ratio exceeds the threshold.  headingSim stands for
HybridRetriever.similarity_score (the SequenceMatcher ratio of the lowercased
headings) and is kept as a function parameter.
-/
def chunkSimilar (headingSim : String → String → ℚ) (threshold : ℚ)
    (c best : Chunk) : Bool :=
  c.pdf_name == best.pdf_name ||
    decide (threshold < headingSim c.heading best.heading)

/--
Loop of HybridRetriever.diverse_top_k (lines 175-199): while fewer than k
indices are selected and some remain, pick the remaining index with the
highest score, then drop from the remaining pool every index whose chunk is
similar (same pdf_name or heading similarity above the threshold) to the
selected one.
-/
def diverseTopKGo (chunks : List Chunk) (scores : List ℚ)
    (headingSim : String → String → ℚ) (threshold : ℚ) :
    Nat → List Nat → List Nat
  | 0, _ => []
  | _ + 1, [] => []
  | k + 1, i :: rest =>
    let best := argmaxFirst scores i rest
    let bestChunk := chunks.getD best default
    let remaining := ((i :: rest).erase best).filter
      (fun idx => !chunkSimilar headingSim threshold (chunks.getD idx default) bestChunk)
    best :: diverseTopKGo chunks scores headingSim threshold k remaining

/-- HybridRetriever.diverse_top_k: the remaining pool starts as
list(range(len(scores))); the default diversity threshold is 0.3. -/
def diverseTopK (chunks : List Chunk) (scores : List ℚ)
    (headingSim : String → String → ℚ) (k : Nat) (threshold : ℚ := 3/10) :
    List Nat :=
  diverseTopKGo chunks scores headingSim threshold k (List.range scores.length)

theorem argmaxFirst_mem (scores : List ℚ) (l : List Nat) :
    ∀ best : Nat, argmaxFirst scores best l = best ∨ argmaxFirst scores best l ∈ l := by
  induction l with
  | nil => intro best; exact Or.inl rfl
  | cons i rest ih =>
    intro best
    simp only [argmaxFirst]
    rcases ih (if scores.getD best 0 < scores.getD i 0 then i else best) with h | h
    · rw [h]
      by_cases hc : scores.getD best 0 < scores.getD i 0
      · simp only [if_pos hc]; exact Or.inr (List.mem_cons_self i rest)
      · simp only [if_neg hc]; exact Or.inl trivial
    · exact Or.inr (List.mem_cons_of_mem i h)

theorem diverseTopKGo_mem (chunks : List Chunk) (scores : List ℚ)
    (headingSim : String → String → ℚ) (threshold : ℚ) (k : Nat) :
    ∀ rem x, x ∈ diverseTopKGo chunks scores headingSim threshold k rem → x ∈ rem := by
  induction k with
  | zero => intro rem x hx; simp [diverseTopKGo] at hx
  | succ k ih =>
    intro rem x hx
    match rem with
    | [] => simp [diverseTopKGo] at hx
    | i :: rest =>
      simp only [diverseTopKGo, List.mem_cons] at hx
      rcases hx with hx | hx
      · subst hx
        rcases argmaxFirst_mem scores rest i with h | h
        · rw [h]; exact List.mem_cons_self i rest
        · exact List.mem_cons_of_mem i h
      · have hx' := ih _ x hx
        have hx'' := List.mem_of_mem_filter hx'
        exact List.mem_of_mem_erase hx''

/--
The pairwise diversity relation: a later-selected index b never shares the
earlier-selected index a's source document, and its heading similarity to a's
heading never exceeds the threshold.
-/
def DiverseRel (chunks : List Chunk) (headingSim : String → String → ℚ)
    (threshold : ℚ) (a b : Nat) : Prop :=
  (chunks.getD b default).pdf_name ≠ (chunks.getD a default).pdf_name ∧
    headingSim (chunks.getD b default).heading (chunks.getD a default).heading ≤ threshold

theorem diverseTopKGo_pairwise (chunks : List Chunk) (scores : List ℚ)
    (headingSim : String → String → ℚ) (threshold : ℚ) (k : Nat) :
    ∀ rem, List.Pairwise (DiverseRel chunks headingSim threshold)
      (diverseTopKGo chunks scores headingSim threshold k rem) := by
  induction k with
  | zero => intro rem; simp [diverseTopKGo]
  | succ k ih =>
    intro rem
    match rem with
    | [] => simp [diverseTopKGo]
    | i :: rest =>
      simp only [diverseTopKGo]
      refine List.Pairwise.cons ?_ (ih _)
      intro b hb
      have hb' := diverseTopKGo_mem chunks scores headingSim threshold k _ b hb
      rw [List.mem_filter] at hb'
      have hsim := hb'.2
      rw [Bool.not_eq_eq_eq_not, Bool.not_true] at hsim
      rw [chunkSimilar, Bool.or_eq_false_iff] at hsim
      constructor
      · intro h
        rw [← beq_iff_eq (a := (chunks.getD b default).pdf_name)] at h
        rw [hsim.1] at h
        exact Bool.false_ne_true h
      · have := of_decide_eq_false hsim.2
        exact le_of_not_lt this

/--
C3: for every chunk list, score list, k, heading-similarity function and
diversity threshold, the index list returned by diversity-aware top-k
selection is pairwise diverse: every index selected after an index a comes
from a different source document (pdf_name) than a's chunk and has heading
similarity to a's heading not exceeding the threshold; in particular no two
returned indices share a source document.
-/
theorem diverseTopK_diverse (chunks : List Chunk) (scores : List ℚ)
    (headingSim : String → String → ℚ) (k : Nat) (threshold : ℚ) :
    List.Pairwise (DiverseRel chunks headingSim threshold)
      (diverseTopK chunks scores headingSim k threshold) :=
  diverseTopKGo_pairwise chunks scores headingSim threshold k _

/-! ## Executable string primitives

The Lean core String functions trim, splitOn, toLower and friends are
implemented with well-founded recursion over byte positions and do not reduce
in the kernel, so the embedding uses its own structurally recursive
primitives over the underlying character lists.  They model the Python
string operations used by the sources. -/

/-- Build a string from its character list. -/
def charsToStr (cs : List Char) : String := ⟨cs⟩

/-- Drop the characters satisfying p from both ends of a character list. -/
def stripChars (p : Char → Bool) (l : List Char) : List Char :=
  ((l.dropWhile p).reverse.dropWhile p).reverse

/-- Python str.strip(): remove leading and trailing whitespace. -/
def pyStrip (s : String) : String :=
  ⟨stripChars Char.isWhitespace s.data⟩

/-- Python str.lower(). -/
def pyLower (s : String) : String := ⟨s.data.map Char.toLower⟩

/-- Python len(s) (character count). -/
def strLen (s : String) : Nat := s.data.length

/-- Python s[:n]. -/
def strTake (n : Nat) (s : String) : String := ⟨s.data.take n⟩

/-- Python s[n:]. -/
def strDrop (n : Nat) (s : String) : String := ⟨s.data.drop n⟩

/-- Split a character list at every character satisfying p, keeping empty
groups, like Python str.split(sep) for a one-character sep. -/
def splitPredGo (p : Char → Bool) : List Char → List (List Char)
  | [] => [[]]
  | x :: xs =>
    match splitPredGo p xs with
    | [] => [[]]
    | g :: gs => if p x then [] :: g :: gs else (x :: g) :: gs

/-- Split a string at every character satisfying p, keeping empty parts. -/
def splitPred (p : Char → Bool) (s : String) : List String :=
  (splitPredGo p s.data).map charsToStr

/-- Python s.split(c) for a single-character separator c. -/
def splitChar (c : Char) (s : String) : List String :=
  splitPred (fun x => x = c) s

/-- Python sep.join(parts). -/
def joinWith (sep : String) : List String → String
  | [] => ""
  | [x] => x
  | x :: y :: xs => x ++ sep ++ joinWith sep (y :: xs)

/-- Helper for substring search over character lists. -/
def containsChars (pat : List Char) : List Char → Bool
  | [] => pat.isPrefixOf ([] : List Char)
  | x :: xs => pat.isPrefixOf (x :: xs) || containsChars pat xs

/-- Python substring membership: pat in s. -/
def containsSub (s pat : String) : Bool := containsChars pat.data s.data

/-- Python str.isdigit(): nonempty and all characters are digits. -/
def pyIsDigit (s : String) : Bool := !s.data.isEmpty && s.data.all Char.isDigit

/-- Numeric value of a digit string, Python int(s). -/
def digitsToNat (s : String) : Nat :=
  s.data.foldl (fun acc c => 10 * acc + (c.toNat - 48)) 0

/-! ## Chunk segmentation (content_chunker.py, extract_chunks_with_headings) -/

/-- Stable insertion keeping longer strings first; models
sorted(headings, key=len, reverse=True). -/
def insertByLenDesc (x : String) : List String → List String
  | [] => [x]
  | y :: ys =>
    if strLen x ≤ strLen y then y :: insertByLenDesc x ys else x :: y :: ys

/-- sorted(headings, key=len, reverse=True): a stable sort placing longer
headings first, so that the regex alternation tries longer headings first. -/
def sortByLenDesc (l : List String) : List String :=
  l.foldr insertByLenDesc []

/--
Whether a text line is a heading line, and for which heading: the compiled
split pattern (?=^(h1|h2|...)\s*$) with MULTILINE matches a line exactly when
the line consists of one of the headings followed only by whitespace; the
first alternative in the sorted order wins.
-/
def matchHeadingLine (sortedHs : List String) (line : String) : Option String :=
  sortedHs.find? (fun h =>
    h.data.isPrefixOf line.data &&
      (line.data.drop h.data.length).all Char.isWhitespace)

/-- Longest prefix of the line list containing no heading line, and the rest. -/
def spanNonHeading (hs : List String) : List String → List String × List String
  | [] => ([], [])
  | l :: ls =>
    match matchHeadingLine hs l with
    | some _ => ([], l :: ls)
    | none =>
      let p := spanNonHeading hs ls
      (l :: p.1, p.2)

theorem spanNonHeading_rest_length (hs : List String) (ls : List String) :
    (spanNonHeading hs ls).2.length ≤ ls.length := by
  induction ls with
  | nil => simp [spanNonHeading]
  | cons l ls ih =>
    simp only [spanNonHeading]
    cases matchHeadingLine hs l with
    | some h => simp
    | none => simpa using Nat.le_succ_of_le ih

/--
The segments produced by re.split on the document text: each matched heading
line opens a segment that runs from the heading line itself (the lookahead
split point is zero width, so the heading line stays in the following part)
up to the next heading line.  Text before the first heading line (parts[0])
is discarded, as the Python loop starts at index 1.
-/
def chunkGroups (hs : List String) (lines : List String) :
    List (String × List String) :=
  match lines with
  | [] => []
  | l :: ls =>
    match matchHeadingLine hs l with
    | some h =>
      (h, l :: (spanNonHeading hs ls).1) :: chunkGroups hs (spanNonHeading hs ls).2
    | none => chunkGroups hs ls
termination_by lines.length
decreasing_by
  all_goals simp only [List.length_cons]
  all_goals first
    | exact Nat.lt_succ_of_le (spanNonHeading_rest_length _ _)
    | exact Nat.lt_succ_self _

/-- find_page_number (content_chunker.py lines 52-56): first page containing
the first 20 characters of the content, 1-based; default 1. -/
def findPageNumber (content : String) (pages : List String) : Nat :=
  go pages 0
where
  go : List String → Nat → Nat
    | [], _ => 1
    | p :: ps, i =>
      if containsSub p (strTake 20 content) then i + 1 else go ps (i + 1)

/--
extract_chunks_with_headings (content_chunker.py lines 6-49).  The document
is abstracted as its per-page plain texts (page.get_text("text") for each
page); all_text is their "\n"-join.
-/
def extractChunksWithHeadings (pdfPath : String) (pages : List String)
    (headings : List String) : List Chunk :=
  let allText := joinWith "\n" pages
  let pdfName := (splitChar '/' pdfPath).getLastD ""
  match headings with
  | [] =>
    -- if no headings found, create one chunk with all content
    if pyStrip allText ≠ "" then
      [⟨"Document Content", pyStrip allText, pdfName, 1⟩]
    else []
  | _ :: _ =>
    let sortedHs := sortByLenDesc headings
    let groups := chunkGroups sortedHs (splitChar '\n' allText)
    let chunks := groups.filterMap (fun g =>
      let heading := pyStrip g.1
      let content := pyStrip (joinWith "\n" g.2)
      if heading ≠ "" ∧ content ≠ "" then
        some ⟨heading, content, pdfName, findPageNumber content pages⟩
      else none)
    -- fallback chunk when no chunks were created despite having headings
    if chunks.isEmpty ∧ pyStrip allText ≠ "" then
      [⟨"Document Content", pyStrip allText, pdfName, 1⟩]
    else chunks

/--
C7 counterexample: with no headings and the single-page text " hello ", the
returned chunk's content is the stripped text "hello", not the whole document
text " hello ", so the claim as stated (content equals the whole document
text) fails.
-/
theorem extractChunks_content_stripped_cex :
    (extractChunksWithHeadings "d.pdf" [" hello "] []).map Chunk.content ≠
      [joinWith "\n" [" hello "]] := by
  decide

/--
C7 amended: for every document and path, with an empty heading list, if the
concatenated document text has any non-whitespace character then exactly one
chunk is returned, whose content is the whole document text stripped of
leading and trailing whitespace (heading "Document Content", page 1);
if the text is entirely whitespace, zero chunks are returned.
-/
theorem extractChunks_no_headings (pdfPath : String) (pages : List String) :
    (pyStrip (joinWith "\n" pages) ≠ "" →
      extractChunksWithHeadings pdfPath pages [] =
        [⟨"Document Content", pyStrip (joinWith "\n" pages),
          (splitChar '/' pdfPath).getLastD "", 1⟩]) ∧
    (pyStrip (joinWith "\n" pages) = "" →
      extractChunksWithHeadings pdfPath pages [] = []) := by
  constructor
  · intro h
    simp only [extractChunksWithHeadings, if_pos h]
  · intro h
    simp only [extractChunksWithHeadings, h]
    simp

/-- Witness for C7 (amended) at a concrete one-page document. -/
theorem extractChunks_no_headings_witness :
    extractChunksWithHeadings "docs/d.pdf" ["hi there"] [] =
      [⟨"Document Content", "hi there", "d.pdf", 1⟩] := by
  have h := (extractChunks_no_headings "docs/d.pdf" ["hi there"]).1 (by decide)
  simpa using h

/-! ## Table-of-contents extraction (pdf_extractor.py) -/

/-- Python text.rstrip('.'): remove all trailing dots. -/
def rstripDots (s : String) : String :=
  ⟨(s.data.reverse.dropWhile (fun c => c = '.')).reverse⟩

/-- PDFOutlineExtractor._is_section_number (lines 341-354). -/
def isSectionNumber (text : String) : Bool :=
  let clean := rstripDots text
  if pyIsDigit clean then true
  else if clean.data.contains '.' then (splitChar '.' clean).all pyIsDigit
  else false

/-- PDFOutlineExtractor._get_heading_level (lines 356-373): number of
dot-separated parts of the section number decides the level. -/
def getHeadingLevel (sectionNum : String) : Level :=
  let clean := rstripDots sectionNum
  let numParts :=
    if clean.data.contains '.' then (splitChar '.' clean).length else 1
  if numParts = 1 then Level.H1
  else if numParts = 2 then Level.H2
  else Level.H3

/-- Mapping of a native (embedded) TOC nesting level to a heading level
(lines 229-234): 1 to H1, 2 to H2, anything else to H3. -/
def tocLevel (level : Int) : Level :=
  if level = 1 then Level.H1 else if level = 2 then Level.H2 else Level.H3

/--
The embedded-TOC loop of detect_table_of_contents (lines 226-240): each
native outline entry (level, title, page) with a nonblank title and positive
page number becomes an outline item with the mapped level, the stripped
title and the zero-indexed page (page - 1); other entries are skipped.
-/
def embeddedTocOutline : List (Int × String × Int) → List OutlineEntry
  | [] => []
  | (lvl, title, page) :: rest =>
    if pyStrip title ≠ "" ∧ 0 < page then
      ⟨tocLevel lvl, pyStrip title, page - 1⟩ :: embeddedTocOutline rest
    else embeddedTocOutline rest

/--
C8 counterexample: a native TOC entry whose page number is 0 is dropped by
the guard "page > 0" (line 227), so it is not recorded at all; the claim as
stated would require it to be recorded with page -1.
-/
theorem embeddedTocOutline_drops_page_zero_cex :
    embeddedTocOutline [((1 : Int), "Intro", (0 : Int))] = [] ∧
      (⟨Level.H1, "Intro", -1⟩ : OutlineEntry) ∉
        embeddedTocOutline [((1 : Int), "Intro", (0 : Int))] := by
  decide

/--
C8 amended: for every entry (level, title, page) of the native outline whose
title is nonblank and whose page number is positive, the embedded-TOC
extractor records an item whose level is H1 for level 1, H2 for level 2 and
H3 for any level at least 3, whose text is the stripped title, and whose
page is the native page number minus 1; entries with a blank title or a
non-positive page number are dropped.
-/
theorem embeddedTocOutline_maps (toc : List (Int × String × Int))
    (lvl : Int) (title : String) (page : Int)
    (hmem : (lvl, title, page) ∈ toc) (ht : pyStrip title ≠ "")
    (hp : 0 < page) :
    (⟨tocLevel lvl, pyStrip title, page - 1⟩ : OutlineEntry) ∈
        embeddedTocOutline toc ∧
      tocLevel 1 = Level.H1 ∧ tocLevel 2 = Level.H2 ∧
      (3 ≤ lvl → tocLevel lvl = Level.H3) := by
  refine ⟨?_, rfl, rfl, ?_⟩
  · induction toc with
    | nil => cases hmem
    | cons e rest ih =>
      rcases List.mem_cons.mp hmem with he | he
      · subst he
        simp only [embeddedTocOutline, if_pos (And.intro ht hp)]
        exact List.mem_cons_self _ _
      · obtain ⟨l2, t2, p2⟩ := e
        simp only [embeddedTocOutline]
        by_cases hc : pyStrip t2 ≠ "" ∧ 0 < p2
        · simp only [if_pos hc]
          exact List.mem_cons_of_mem _ (ih he)
        · simp only [if_neg hc]
          exact ih he
  · intro h3
    have h1 : lvl ≠ 1 := by omega
    have h2 : lvl ≠ 2 := by omega
    simp [tocLevel, h1, h2]

/-- Witness for C8 (amended) at a concrete native TOC. -/
theorem embeddedTocOutline_maps_witness :
    (⟨Level.H3, "Results", 1⟩ : OutlineEntry) ∈
        embeddedTocOutline [((3 : Int), " Results ", (2 : Int))] ∧
      tocLevel 1 = Level.H1 ∧ tocLevel 2 = Level.H2 ∧
      ((3 : Int) ≤ 3 → tocLevel 3 = Level.H3) := by
  have h := embeddedTocOutline_maps [((3 : Int), " Results ", (2 : Int))]
    3 " Results " 2 (List.mem_singleton.mpr rfl) (by decide) (by decide)
  simpa using h

/-! ### Textual TOC parsing (get_outline_from_toc, lines 273-339) -/

/-- A token that terminates an entry as a page number:
entries[i].isdigit() and int(entries[i]) < 1000. -/
def isPageToken (s : String) : Bool :=
  pyIsDigit s && decide (digitsToNat s < 1000)

/--
Inner loop of the numbered-section branch (lines 295-310): accumulate title
tokens until a page-number token appears; returns the accumulated title
parts, the page value and the tokens after the page token, or none if the
token list is exhausted first (which ends all parsing).
-/
def scanNumbered : List String → List String →
    Option (List String × Nat × List String)
  | [], _ => none
  | t :: ts, acc =>
    if isPageToken t then some (acc.reverse, digitsToNat t, ts)
    else scanNumbered ts (t :: acc)

/-- Result of the non-numbered entry scan. -/
inductive UnnumberedScan where
  | page (titleParts : List String) (pageNum : Nat) (rest : List String)
  | backupAt (rest : List String)
  | exhausted
deriving Repr

/--
Inner loop of the non-numbered branch (lines 316-335): accumulate title
tokens until a page-number token (entry emitted) or a section-number token
(back up: that token is reprocessed by the outer loop, the accumulated entry
is discarded); exhaustion ends all parsing.
-/
def scanUnnumbered : List String → List String → UnnumberedScan
  | [], _ => UnnumberedScan.exhausted
  | t :: ts, acc =>
    if isPageToken t then UnnumberedScan.page acc.reverse (digitsToNat t) ts
    else if isSectionNumber t then UnnumberedScan.backupAt (t :: ts)
    else scanUnnumbered ts (t :: acc)

theorem scanNumbered_rest_length (l : List String) :
    ∀ acc parts p rest, scanNumbered l acc = some (parts, p, rest) →
      rest.length < l.length := by
  induction l with
  | nil => intro acc parts p rest h; cases h
  | cons t ts ih =>
    intro acc parts p rest h
    simp only [scanNumbered] at h
    by_cases hc : isPageToken t = true
    · rw [if_pos hc] at h
      cases h
      exact Nat.lt_succ_of_le (Nat.le_refl _)
    · rw [if_neg hc] at h
      exact Nat.lt_succ_of_lt (ih _ _ _ _ h)

theorem scanUnnumbered_page_rest_length (l : List String) :
    ∀ acc parts p rest, scanUnnumbered l acc = UnnumberedScan.page parts p rest →
      rest.length < l.length := by
  induction l with
  | nil => intro acc parts p rest h; cases h
  | cons t ts ih =>
    intro acc parts p rest h
    simp only [scanUnnumbered] at h
    by_cases hc : isPageToken t = true
    · rw [if_pos hc] at h
      cases h
      exact Nat.lt_succ_of_le (Nat.le_refl _)
    · rw [if_neg hc] at h
      by_cases hs : isSectionNumber t = true
      · rw [if_pos hs] at h; cases h
      · rw [if_neg hs] at h
        exact Nat.lt_succ_of_lt (ih _ _ _ _ h)

theorem scanUnnumbered_backup_rest_length (l : List String) :
    ∀ acc rest, scanUnnumbered l acc = UnnumberedScan.backupAt rest →
      rest.length ≤ l.length := by
  induction l with
  | nil => intro acc rest h; cases h
  | cons t ts ih =>
    intro acc rest h
    simp only [scanUnnumbered] at h
    by_cases hc : isPageToken t = true
    · rw [if_pos hc] at h; cases h
    · rw [if_neg hc] at h
      by_cases hs : isSectionNumber t = true
      · rw [if_pos hs] at h
        cases h
        exact Nat.le_refl _
      · rw [if_neg hs] at h
        exact Nat.le_succ_of_le (ih _ _ h)

/--
Outer loop of get_outline_from_toc over the cleaned token list: a
section-number token opens a numbered entry (text "sectionNum title", page
stored exactly as the terminating token's value); a token with an uppercase
first character that is not all digits opens a non-numbered H1 entry whose
stored page is the terminating token's value minus 1; any other token is
skipped.
-/
def parseEntries (entries : List String) : List OutlineEntry :=
  match entries with
  | [] => []
  | e :: rest =>
    if isSectionNumber e then
      match h : scanNumbered rest [] with
      | none => []
      | some (parts, p, rest') =>
        let title := pyStrip (joinWith " " parts)
        if title ≠ "" then
          ⟨getHeadingLevel e, e ++ " " ++ title, (p : Int)⟩ :: parseEntries rest'
        else parseEntries rest'
    else if (e.data.headD ' ').isUpper && !pyIsDigit e then
      match h : scanUnnumbered rest [e] with
      | UnnumberedScan.exhausted => []
      | UnnumberedScan.page parts p rest' =>
        ⟨Level.H1, pyStrip (joinWith " " parts), (p : Int) - 1⟩ ::
          parseEntries rest'
      | UnnumberedScan.backupAt rest' => parseEntries rest'
    else parseEntries rest
termination_by entries.length
decreasing_by
  all_goals simp only [List.length_cons]
  all_goals first
    | exact Nat.lt_succ_of_lt (scanNumbered_rest_length _ _ _ _ _ h)
    | exact Nat.lt_succ_of_lt (scanUnnumbered_page_rest_length _ _ _ _ _ h)
    | exact Nat.lt_succ_of_le (scanUnnumbered_backup_rest_length _ _ _ h)
    | exact Nat.lt_succ_self _

/-- get_outline_from_toc (lines 273-339): tokens are the page's remaining
lines, stripped, with blank lines removed. -/
def getOutlineFromToc (pageText : List String) : List OutlineEntry :=
  parseEntries ((pageText.map pyStrip).filter (fun x => x ≠ ""))

/--
C10: textual-TOC page indexing is inconsistent between the two entry kinds:
a numbered-section entry (section-number token s, one title token t, then a
page-number token p) stores the page value of p unchanged, while a
non-numbered entry (uppercase-initial non-digit token u terminated by a
page-number token q) stores the value of q minus 1.
-/
theorem parseEntries_page_indexing (s t p u q : String)
    (rest rest2 : List String)
    (hs : isSectionNumber s = true)
    (htp : isPageToken t = false) (ht : pyStrip t ≠ "")
    (hp : isPageToken p = true)
    (hus : isSectionNumber u = false)
    (huu : (u.data.headD ' ').isUpper = true) (hud : pyIsDigit u = false)
    (hq : isPageToken q = true) :
    parseEntries (s :: t :: p :: rest) =
        ⟨getHeadingLevel s, s ++ " " ++ pyStrip t, (digitsToNat p : Int)⟩ ::
          parseEntries rest ∧
      parseEntries (u :: q :: rest2) =
        ⟨Level.H1, pyStrip u, (digitsToNat q : Int) - 1⟩ ::
          parseEntries rest2 := by
  constructor
  · rw [parseEntries]
    rw [if_pos hs]
    have hscan : scanNumbered (t :: p :: rest) [] =
        some ([t], digitsToNat p, rest) := by
      simp [scanNumbered, htp, hp]
    rw [hscan]
    simp only [joinWith]
    rw [if_pos ht]
  · rw [parseEntries]
    rw [if_neg (by simp [hus])]
    rw [if_pos (show ((u.data.headD ' ').isUpper && !pyIsDigit u) = true by
      rw [huu, hud]; rfl)]
    have hscan : scanUnnumbered (q :: rest2) [u] =
        UnnumberedScan.page [u] (digitsToNat q) rest2 := by
      simp [scanUnnumbered, hq]
    rw [hscan]
    simp only [joinWith]

/-- Witness for C10 at concrete TOC tokens. -/
theorem parseEntries_page_indexing_witness :
    parseEntries ["2.1", "Overview", "5"] =
        [⟨Level.H2, "2.1 Overview", 5⟩] ∧
      parseEntries ["Revision History", "3"] =
        [⟨Level.H1, "Revision History", 2⟩] := by
  have h := parseEntries_page_indexing "2.1" "Overview" "5" "Revision History"
    "3" [] [] (by decide) (by decide) (by decide) (by decide) (by decide)
    (by decide) (by decide) (by decide)
  have hnil : parseEntries ([] : List String) = [] := by simp [parseEntries]
  constructor
  · rw [h.1, hnil]; decide
  · rw [h.2, hnil]; decide

/-! ## Document model and title extraction (PDFOutlineExtractor.extract_title) -/

/-- One text span of a parsed page: size, text and font flags. -/
structure Span where
  size : ℚ
  text : String
  flags : Nat
deriving Repr, Inhabited

/-- One line of spans. -/
structure TextLine where
  spans : List Span
deriving Repr, Inhabited

/-- One page block: bbox coordinates x0, y0 and the optional "lines" key. -/
structure Block where
  x0 : ℚ
  y0 : ℚ
  lines : Option (List TextLine)
deriving Repr, Inhabited

/-- One page: dimensions, dict blocks, and the plain text (page.get_text())
as a list of lines. -/
structure Page where
  width : ℚ
  height : ℚ
  blocks : List Block
  textLines : List String
deriving Repr, Inhabited

/-- A decoded document: pages plus the native outline from doc.get_toc(). -/
structure Doc where
  pages : List Page
  toc : List (Int × String × Int)
deriving Repr, Inhabited

/-- Largest i in [1, bound] such that s1 ends with the first i characters of
s2, else 0 (merge_strings' overlap search, lines 49-55). -/
def maxOverlapGo (s1 s2 : List Char) : Nat → Nat
  | 0 => 0
  | i + 1 =>
    if (s2.take (i + 1)).isSuffixOf s1 then i + 1 else maxOverlapGo s1 s2 i

/-- merge_strings (pdf_extractor.py lines 49-55): append s2 to s1 dropping
the longest overlap between a suffix of s1 and a prefix of s2. -/
def mergeStrings (s1 s2 : String) : String :=
  let bound := min s1.data.length s2.data.length
  ⟨s1.data ++ s2.data.drop (maxOverlapGo s1.data s2.data bound)⟩

/-- Font sizes of the spans of one block that lie in the top half of the
first page (the y position is the block's bbox y0). -/
def blockTopSpanSizes (pageHeight : ℚ) (b : Block) : List ℚ :=
  match b.lines with
  | none => []
  | some lns =>
    if b.y0 < pageHeight * (1 / 2) then
      (lns.map (fun ln => ln.spans.map Span.size)).flatten
    else []

/-- All font sizes in the top half of a page (extract_title lines 34-41). -/
def titleFontSizes (p : Page) : List ℚ :=
  (p.blocks.map (blockTopSpanSizes p.height)).flatten

/-- Maximum of a rational list (0 for the empty list, which extract_title
never queries). -/
def maxQ : List ℚ → ℚ
  | [] => 0
  | x :: xs => xs.foldl max x

/-- The text of a line: the stripped span texts joined with single spaces and
stripped (lines 62-71). -/
def lineText (ln : TextLine) : String :=
  pyStrip (ln.spans.foldl (fun s sp => s ++ pyStrip sp.text ++ " ") "")

/-- The span font sizes of a line. -/
def lineSizes (ln : TextLine) : List ℚ :=
  ln.spans.map Span.size

/-- Mutate the last element of a Python list, if any. -/
def updateLast (f : String → String) : List String → List String
  | [] => []
  | [x] => [f x]
  | x :: y :: xs => x :: updateLast f (y :: xs)

/--
Per-line step of the title loop (extract_title lines 61-89).  A line whose
spans all have the maximal font size (within 1e-2) merges into the last title
line (or starts it); a line whose spans all have size in [22, max) is
appended to the last title line with overlap merging — when no title line
exists yet this Python code raises IndexError (title_lines[-1] on an empty
list), modelled as an error value.
-/
def processLine (maxF : ℚ) (tl : List String) (ln : TextLine) :
    Except String (List String) :=
  let t := lineText ln
  if t = "" then Except.ok tl
  else if (lineSizes ln).all (fun sz => decide (|sz - maxF| < 1 / 100)) then
    Except.ok (match tl with
      | [] => [t]
      | _ :: _ => updateLast (fun last => mergeStrings last t) tl)
  else if (lineSizes ln).all (fun sz => decide (22 ≤ sz ∧ sz < maxF)) then
    match tl with
    | [] => Except.error "IndexError: list index out of range"
    | _ :: _ =>
      Except.ok (updateLast (fun last => mergeStrings (last ++ " ") t ++ " ") tl)
  else Except.ok tl

/-- Per-block step of the title loop: lines in top-half blocks are processed;
after any block with a "lines" key, a trailing space is appended to the last
title line if one exists (lines 90-91). -/
def processBlock (maxF pageHeight : ℚ) (tl : List String) (b : Block) :
    Except String (List String) :=
  match b.lines with
  | none => Except.ok tl
  | some lns => do
    let tl2 ←
      if b.y0 < pageHeight * (1 / 2) then lns.foldlM (processLine maxF) tl
      else pure tl
    pure (match tl2 with
      | [] => []
      | _ :: _ => updateLast (fun last => last ++ " ") tl2)

/--
PDFOutlineExtractor.extract_title (lines 27-94).  The entire body is guarded
by "if len(doc) > 0:" with no else branch, so a zero-page document makes the
function fall through and return Python None, modelled as Option.none; a
first page with no spans in its top half returns the empty string.
-/
def extractTitle (doc : Doc) : Except String (Option String) :=
  match doc.pages with
  | [] => Except.ok none
  | page :: _ =>
    let fontSizes := titleFontSizes page
    if fontSizes.isEmpty then Except.ok (some "")
    else do
      let maxF := maxQ fontSizes
      let titleLines ← page.blocks.foldlM (processBlock maxF page.height)
        ([] : List String)
      pure (some (titleLines.getLastD ""))

/--
C9: evaluation at the failing input.  For a document with zero pages (a case
the claim includes in "no qualifying spans exist"), extract_title returns
Python None — the body never executes and the function falls off the end —
rather than the empty string the claim requires; for a document whose first
page has no top-half spans it does return the empty string.
-/
theorem extractTitle_zero_pages_cex :
    extractTitle ⟨[], []⟩ = Except.ok none ∧
      (Except.ok (none : Option String) : Except String (Option String)) ≠
        Except.ok (some "") := by
  constructor
  · rfl
  · intro h
    injection h with h'
    cases h'

/-- The true half of C9: a document whose first page has blocks but no span
in the top half of the page yields the empty-string title. -/
theorem extractTitle_no_qualifying_spans (doc : Doc) (page : Page)
    (rest : List Page) (hpages : doc.pages = page :: rest)
    (hempty : titleFontSizes page = []) :
    extractTitle doc = Except.ok (some "") := by
  cases doc with
  | mk pages toc =>
    simp only at hpages
    subst hpages
    simp [extractTitle, hempty]

/-- Witness for the true half of C9: a one-page document whose only block
sits in the bottom half of the page. -/
theorem extractTitle_no_qualifying_spans_witness :
    extractTitle
        ⟨[⟨100, 200, [⟨10, 150, some [⟨[⟨12, "footer", 0⟩]⟩]⟩], []⟩], []⟩ =
      Except.ok (some "") :=
  extractTitle_no_qualifying_spans _ _ [] rfl (by
    simp [titleFontSizes, blockTopSpanSizes]
    norm_num)

/-! ## Final cleaning pass (PDFOutlineExtractor.validate_and_clean_result)

The leaf predicates of the cleaning pass — normalize_text (regex based),
texts_are_similar (SequenceMatcher ratio) and
contains_date_or_time_reference (regex based) — are modelled as function
parameters collected in a CleanCfg; the idempotence theorem is proved for
every choice of them.  The title normalization re.sub(r'\s+', ' ',
title.strip()) and the str.strip() applied to entry texts are modelled
concretely. -/

theorem dropWhile_stripChars (p : Char → Bool) (l : List Char) :
    (stripChars p l).dropWhile p = stripChars p l := by
  cases hs : stripChars p l with
  | nil => simp
  | cons x t =>
    have h1 : (l.dropWhile p).reverse.dropWhile p <:+ (l.dropWhile p).reverse :=
      List.dropWhile_suffix p
    have h2 : ((l.dropWhile p).reverse.dropWhile p).reverse.reverse <:+
        (l.dropWhile p).reverse := by
      rwa [List.reverse_reverse]
    have hpre : stripChars p l <+: l.dropWhile p := List.reverse_suffix.mp h2
    rw [hs] at hpre
    obtain ⟨u, hu⟩ := hpre
    have hne : l.dropWhile p ≠ [] := by
      rw [← hu]; simp
    have hx := List.head_dropWhile_not p l hne
    have hxx : (l.dropWhile p).head hne = x := by
      have : l.dropWhile p = x :: (t ++ u) := by rw [← hu]; simp
      simp [this]
    rw [hxx] at hx
    simp [List.dropWhile_cons, hx]

theorem stripChars_idem (p : Char → Bool) (l : List Char) :
    stripChars p (stripChars p l) = stripChars p l := by
  conv_lhs => rw [stripChars]
  rw [dropWhile_stripChars]
  have hrev : (stripChars p l).reverse = (l.dropWhile p).reverse.dropWhile p := by
    rw [stripChars, List.reverse_reverse]
  rw [hrev, List.dropWhile_idempotent]
  rfl

/-- Python str.strip() is idempotent. -/
theorem pyStrip_idem (s : String) : pyStrip (pyStrip s) = pyStrip s :=
  congrArg String.mk (stripChars_idem Char.isWhitespace s.data)

/-- Join character groups with single spaces. -/
def joinSpace : List (List Char) → List Char
  | [] => []
  | [a] => a
  | a :: b :: rest => a ++ ' ' :: joinSpace (b :: rest)

/-- re.sub(r'\s+', ' ', s.strip()) at character level: split at whitespace,
drop empty groups, join with single spaces. -/
def collapseChars (l : List Char) : List Char :=
  joinSpace ((splitPredGo Char.isWhitespace l).filter (fun g => g ≠ []))

/-- re.sub(r'\s+', ' ', s.strip()): collapse internal whitespace runs to
single spaces and strip the ends. -/
def collapseWs (s : String) : String := ⟨collapseChars s.data⟩

theorem splitPredGo_ne_nil (p : Char → Bool) (l : List Char) :
    splitPredGo p l ≠ [] := by
  cases l with
  | nil => simp [splitPredGo]
  | cons x xs =>
    simp only [splitPredGo]
    cases h : splitPredGo p xs with
    | nil => simp
    | cons g gs =>
      by_cases hp : p x = true
      · simp [hp]
      · simp [hp]

theorem splitPredGo_nowhite (p : Char → Bool) (l : List Char) :
    ∀ g ∈ splitPredGo p l, ∀ c ∈ g, p c = false := by
  induction l with
  | nil =>
    intro g hg c hc
    simp [splitPredGo] at hg
    subst hg
    cases hc
  | cons x xs ih =>
    intro g hg c hc
    cases h : splitPredGo p xs with
    | nil => exact absurd h (splitPredGo_ne_nil p xs)
    | cons g0 gs =>
      simp only [splitPredGo, h] at hg
      by_cases hp : p x = true
      · rw [if_pos hp] at hg
        rcases List.mem_cons.mp hg with hg1 | hg1
        · subst hg1; cases hc
        · exact ih g (h ▸ hg1) c hc
      · rw [if_neg hp] at hg
        rcases List.mem_cons.mp hg with hg1 | hg1
        · subst hg1
          rcases List.mem_cons.mp hc with hc1 | hc1
          · subst hc1
            exact Bool.eq_false_iff.mpr hp
          · exact ih g0 (h ▸ List.mem_cons_self g0 gs) c hc1
        · exact ih g (h ▸ List.mem_cons_of_mem g0 hg1) c hc

theorem splitPredGo_all_false (p : Char → Bool) (a : List Char)
    (h : ∀ c ∈ a, p c = false) : splitPredGo p a = [a] := by
  induction a with
  | nil => rfl
  | cons x xs ih =>
    have hx : p x = false := h x (List.mem_cons_self x xs)
    have hxs : splitPredGo p xs = [xs] :=
      ih (fun c hc => h c (List.mem_cons_of_mem x hc))
    simp [splitPredGo, hxs, hx]

theorem splitPredGo_append_sep (p : Char → Bool) (sep : Char)
    (hsep : p sep = true) (a r : List Char) (ha : ∀ c ∈ a, p c = false) :
    splitPredGo p (a ++ sep :: r) = a :: splitPredGo p r := by
  induction a with
  | nil =>
    cases h : splitPredGo p r with
    | nil => exact absurd h (splitPredGo_ne_nil p r)
    | cons g0 gs => simp [splitPredGo, h, hsep]
  | cons x xs ih =>
    have hx : p x = false := ha x (List.mem_cons_self x xs)
    have hxs := ih (fun c hc => ha c (List.mem_cons_of_mem x hc))
    simp only [List.cons_append, splitPredGo, List.append_eq]
    rw [hxs]
    simp [hx]

theorem splitPredGo_joinSpace (p : Char → Bool) (hsp : p ' ' = true)
    (ps : List (List Char)) (h1 : ∀ g ∈ ps, g ≠ [])
    (h2 : ∀ g ∈ ps, ∀ c ∈ g, p c = false) :
    (splitPredGo p (joinSpace ps)).filter (fun g => g ≠ []) = ps := by
  induction ps with
  | nil => simp [joinSpace, splitPredGo]
  | cons a tail ih =>
    cases tail with
    | nil =>
      have ha : splitPredGo p a = [a] :=
        splitPredGo_all_false p a (h2 a (List.mem_cons_self a []))
      have hne : a ≠ [] := h1 a (List.mem_cons_self a [])
      simp [joinSpace, ha, hne]
    | cons b rest =>
      have hsplit := splitPredGo_append_sep p ' ' hsp a (joinSpace (b :: rest))
        (h2 a (List.mem_cons_self a (b :: rest)))
      have hne : a ≠ [] := h1 a (List.mem_cons_self a (b :: rest))
      have htail := ih (fun g hg => h1 g (List.mem_cons_of_mem a hg))
        (fun g hg => h2 g (List.mem_cons_of_mem a hg))
      simp only [joinSpace, hsplit, List.filter_cons]
      rw [htail]
      simp [hne]

theorem collapseChars_idem (l : List Char) :
    collapseChars (collapseChars l) = collapseChars l := by
  unfold collapseChars
  have h1 : ∀ g ∈ (splitPredGo Char.isWhitespace l).filter (fun g => g ≠ []),
      g ≠ [] := by
    intro g hg
    exact of_decide_eq_true (List.mem_filter.mp hg).2
  have h2 : ∀ g ∈ (splitPredGo Char.isWhitespace l).filter (fun g => g ≠ []),
      ∀ c ∈ g, Char.isWhitespace c = false := by
    intro g hg c hc
    exact splitPredGo_nowhite Char.isWhitespace l g (List.mem_of_mem_filter hg) c hc
  rw [splitPredGo_joinSpace Char.isWhitespace (by decide) _ h1 h2]

/-- Title normalization is idempotent. -/
theorem collapseWs_idem (s : String) : collapseWs (collapseWs s) = collapseWs s :=
  congrArg String.mk (collapseChars_idem s.data)

/-- The abstracted leaf predicates of validate_and_clean_result:
norm models normalize_text (lines 610-619), sim models texts_are_similar
(lines 621-639), isDate models contains_date_or_time_reference
(lines 519-568).  All are pure functions of their string arguments. -/
structure CleanCfg where
  norm : String → String
  sim : String → String → Bool
  isDate : String → Bool

/-- The result dict \x7b"title": ..., "outline": ...\x7d; the title can be
Python None (extract_title of a zero-page document). -/
structure ResultDict where
  title : Option String
  outline : List OutlineEntry
deriving DecidableEq, Repr

/-- The local variable title of validate_and_clean_result (lines 599-602):
the cleaned title when result["title"] is truthy, else the empty string. -/
def cleanedTitle : Option String → String
  | some s => if s = "" then "" else collapseWs s
  | none => ""

/-- The value stored back into result["title"]: assigned only when the
incoming title is truthy (line 600-602). -/
def cleanedTitleStored : Option String → Option String
  | some s => if s = "" then some s else some (collapseWs s)
  | none => none

/-- title_normalized = title.lower().strip() if title else "" (line 608). -/
def cleanedTitleNorm (t : Option String) : String :=
  if cleanedTitle t = "" then "" else pyStrip (pyLower (cleanedTitle t))

/-- The exact-duplicate key f"(level):(normalized text):(page)" (line 665). -/
def entryKey (cfg : CleanCfg) (e : OutlineEntry) : Level × String × Int :=
  (e.level, cfg.norm e.text, e.page)

/--
First duplicate-elimination pass (lines 641-674): per item, skip empty or
very short normalized headings, skip items similar to the title, skip items
containing date/time references, then accept only when not fuzzy-similar to
any previously accepted text and the exact key is unseen.
-/
def cleanPass1 (cfg : CleanCfg) (title titleNorm : String) :
    List (Level × String × Int) → List String → List OutlineEntry →
      List OutlineEntry
  | _, _, [] => []
  | seenKeys, seenTexts, item :: rest =>
    if pyStrip item.text = "" ∨ strLen (cfg.norm (pyStrip item.text)) < 2 then
      cleanPass1 cfg title titleNorm seenKeys seenTexts rest
    else if titleNorm ≠ "" ∧ cfg.sim (pyStrip item.text) title = true then
      cleanPass1 cfg title titleNorm seenKeys seenTexts rest
    else if cfg.isDate (pyStrip item.text) = true then
      cleanPass1 cfg title titleNorm seenKeys seenTexts rest
    else if seenTexts.any (fun e => cfg.sim (pyStrip item.text) e) = false ∧
        (item.level, cfg.norm (pyStrip item.text), item.page) ∉ seenKeys then
      ⟨item.level, pyStrip item.text, item.page⟩ ::
        cleanPass1 cfg title titleNorm
          ((item.level, cfg.norm (pyStrip item.text), item.page) :: seenKeys)
          (pyStrip item.text :: seenTexts) rest
    else
      cleanPass1 cfg title titleNorm seenKeys seenTexts rest

/--
Second duplicate-elimination pass (lines 676-692): keep an item only when it
is not fuzzy-similar to any item already kept in the final list.
-/
def cleanPass2 (cfg : CleanCfg) :
    List String → List OutlineEntry → List OutlineEntry
  | _, [] => []
  | seenTexts, item :: rest =>
    if seenTexts.any (fun e => cfg.sim item.text e) = true then
      cleanPass2 cfg seenTexts rest
    else
      item :: cleanPass2 cfg (item.text :: seenTexts) rest

/-- PDFOutlineExtractor.validate_and_clean_result (lines 596-703). -/
def validateAndCleanResult (cfg : CleanCfg) (r : ResultDict) : ResultDict :=
  ⟨cleanedTitleStored r.title,
    cleanPass2 cfg []
      (cleanPass1 cfg (cleanedTitle r.title) (cleanedTitleNorm r.title) [] []
        r.outline)⟩

/-- The conditions every item accepted by the first pass satisfies: its text
is strip-stable, nonempty, long enough after normalization, not similar to
the title (when one exists) and free of date/time references. -/
def CleanItemOk (cfg : CleanCfg) (title titleNorm : String)
    (e : OutlineEntry) : Prop :=
  pyStrip e.text = e.text ∧
  e.text ≠ "" ∧
  2 ≤ strLen (cfg.norm e.text) ∧
  ¬(titleNorm ≠ "" ∧ cfg.sim e.text title = true) ∧
  cfg.isDate e.text = false

theorem cleanPass1_mem_ok (cfg : CleanCfg) (title titleNorm : String)
    (l : List OutlineEntry) :
    ∀ seenKeys seenTexts,
      ∀ e ∈ cleanPass1 cfg title titleNorm seenKeys seenTexts l,
        CleanItemOk cfg title titleNorm e := by
  induction l with
  | nil => intro sk st e he; simp [cleanPass1] at he
  | cons item rest ih =>
    intro sk st e he
    simp only [cleanPass1] at he
    by_cases h1 : pyStrip item.text = "" ∨ strLen (cfg.norm (pyStrip item.text)) < 2
    · rw [if_pos h1] at he; exact ih _ _ e he
    · rw [if_neg h1] at he
      by_cases h2 : titleNorm ≠ "" ∧ cfg.sim (pyStrip item.text) title = true
      · rw [if_pos h2] at he; exact ih _ _ e he
      · rw [if_neg h2] at he
        by_cases h3 : cfg.isDate (pyStrip item.text) = true
        · rw [if_pos h3] at he; exact ih _ _ e he
        · rw [if_neg h3] at he
          by_cases h4 : st.any (fun e => cfg.sim (pyStrip item.text) e) = false ∧
              (item.level, cfg.norm (pyStrip item.text), item.page) ∉ sk
          · rw [if_pos h4] at he
            rcases List.mem_cons.mp he with he1 | he1
            · subst he1
              push_neg at h1
              refine ⟨pyStrip_idem item.text, h1.1, h1.2, h2, ?_⟩
              exact Bool.not_eq_true _ ▸ h3
            · exact ih _ _ e he1
          · rw [if_neg h4] at he; exact ih _ _ e he

theorem cleanPass1_sim (cfg : CleanCfg) (title titleNorm : String)
    (l : List OutlineEntry) :
    ∀ seenKeys seenTexts,
      (∀ e ∈ cleanPass1 cfg title titleNorm seenKeys seenTexts l,
        ∀ t ∈ seenTexts, cfg.sim e.text t = false) ∧
      List.Pairwise (fun a b => cfg.sim b.text a.text = false)
        (cleanPass1 cfg title titleNorm seenKeys seenTexts l) := by
  induction l with
  | nil =>
    intro sk st
    constructor
    · intro e he; simp [cleanPass1] at he
    · simp [cleanPass1]
  | cons item rest ih =>
    intro sk st
    simp only [cleanPass1]
    by_cases h1 : pyStrip item.text = "" ∨ strLen (cfg.norm (pyStrip item.text)) < 2
    · rw [if_pos h1]; exact ih sk st
    · rw [if_neg h1]
      by_cases h2 : titleNorm ≠ "" ∧ cfg.sim (pyStrip item.text) title = true
      · rw [if_pos h2]; exact ih sk st
      · rw [if_neg h2]
        by_cases h3 : cfg.isDate (pyStrip item.text) = true
        · rw [if_pos h3]; exact ih sk st
        · rw [if_neg h3]
          by_cases h4 : st.any (fun e => cfg.sim (pyStrip item.text) e) = false ∧
              (item.level, cfg.norm (pyStrip item.text), item.page) ∉ sk
          · rw [if_pos h4]
            have hrec := ih ((item.level, cfg.norm (pyStrip item.text),
              item.page) :: sk) (pyStrip item.text :: st)
            have hany : ∀ t ∈ st, cfg.sim (pyStrip item.text) t = false := by
              intro t ht
              have := List.any_eq_false.mp h4.1 t ht
              exact Bool.not_eq_true _ ▸ this
            constructor
            · intro e he t ht
              rcases List.mem_cons.mp he with he1 | he1
              · subst he1
                exact hany t ht
              · exact hrec.1 e he1 t (List.mem_cons_of_mem _ ht)
            · refine List.Pairwise.cons ?_ hrec.2
              intro b hb
              exact hrec.1 b hb (pyStrip item.text)
                (List.mem_cons_self _ _)
          · rw [if_neg h4]; exact ih sk st

theorem cleanPass1_keys (cfg : CleanCfg) (title titleNorm : String)
    (l : List OutlineEntry) :
    ∀ seenKeys seenTexts,
      (∀ e ∈ cleanPass1 cfg title titleNorm seenKeys seenTexts l,
        entryKey cfg e ∉ seenKeys) ∧
      List.Pairwise (fun a b => entryKey cfg a ≠ entryKey cfg b)
        (cleanPass1 cfg title titleNorm seenKeys seenTexts l) := by
  induction l with
  | nil =>
    intro sk st
    constructor
    · intro e he; simp [cleanPass1] at he
    · simp [cleanPass1]
  | cons item rest ih =>
    intro sk st
    simp only [cleanPass1]
    by_cases h1 : pyStrip item.text = "" ∨ strLen (cfg.norm (pyStrip item.text)) < 2
    · rw [if_pos h1]; exact ih sk st
    · rw [if_neg h1]
      by_cases h2 : titleNorm ≠ "" ∧ cfg.sim (pyStrip item.text) title = true
      · rw [if_pos h2]; exact ih sk st
      · rw [if_neg h2]
        by_cases h3 : cfg.isDate (pyStrip item.text) = true
        · rw [if_pos h3]; exact ih sk st
        · rw [if_neg h3]
          by_cases h4 : st.any (fun e => cfg.sim (pyStrip item.text) e) = false ∧
              (item.level, cfg.norm (pyStrip item.text), item.page) ∉ sk
          · rw [if_pos h4]
            have hrec := ih ((item.level, cfg.norm (pyStrip item.text),
              item.page) :: sk) (pyStrip item.text :: st)
            constructor
            · intro e he
              rcases List.mem_cons.mp he with he1 | he1
              · subst he1
                exact h4.2
              · intro hmem
                exact hrec.1 e he1 (List.mem_cons_of_mem _ hmem)
            · refine List.Pairwise.cons ?_ hrec.2
              intro b hb
              have := hrec.1 b hb
              intro heq
              exact this (heq ▸ List.mem_cons_self _ _)
          · rw [if_neg h4]; exact ih sk st

theorem cleanPass1_id (cfg : CleanCfg) (title titleNorm : String)
    (l : List OutlineEntry) :
    ∀ seenKeys seenTexts,
      (∀ e ∈ l, CleanItemOk cfg title titleNorm e) →
      List.Pairwise (fun a b => entryKey cfg a ≠ entryKey cfg b) l →
      List.Pairwise (fun a b => cfg.sim b.text a.text = false) l →
      (∀ e ∈ l, entryKey cfg e ∉ seenKeys) →
      (∀ e ∈ l, ∀ t ∈ seenTexts, cfg.sim e.text t = false) →
      cleanPass1 cfg title titleNorm seenKeys seenTexts l = l := by
  induction l with
  | nil => intro sk st _ _ _ _ _; rfl
  | cons item rest ih =>
    intro sk st hok hkeys hsim hsk hst
    obtain ⟨hstrip, hne, hlen, htitle, hdate⟩ :=
      hok item (List.mem_cons_self item rest)
    simp only [cleanPass1, hstrip]
    rw [if_neg (by
      intro hcon
      rcases hcon with hcon | hcon
      · exact hne hcon
      · exact Nat.not_lt_of_le hlen hcon)]
    rw [if_neg htitle]
    rw [if_neg (by simp [hdate])]
    rw [if_pos (by
      refine ⟨List.any_eq_false.mpr ?_, hsk item (List.mem_cons_self item rest)⟩
      intro t ht
      simp [hst item (List.mem_cons_self item rest) t ht])]
    have hrest : cleanPass1 cfg title titleNorm
        ((item.level, cfg.norm item.text, item.page) :: sk)
        (item.text :: st) rest = rest := by
      apply ih
      · intro e he; exact hok e (List.mem_cons_of_mem _ he)
      · exact (List.pairwise_cons.mp hkeys).2
      · exact (List.pairwise_cons.mp hsim).2
      · intro e he
        intro hmem
        rcases List.mem_cons.mp hmem with hmem1 | hmem1
        · exact (List.pairwise_cons.mp hkeys).1 e he hmem1.symm
        · exact hsk e (List.mem_cons_of_mem _ he) hmem1
      · intro e he t ht
        rcases List.mem_cons.mp ht with ht1 | ht1
        · subst ht1
          exact (List.pairwise_cons.mp hsim).1 e he
        · exact hst e (List.mem_cons_of_mem _ he) t ht1
    rw [hrest]

theorem cleanPass2_sublist (cfg : CleanCfg) (l : List OutlineEntry) :
    ∀ seenTexts, List.Sublist (cleanPass2 cfg seenTexts l) l := by
  induction l with
  | nil => intro st; simp [cleanPass2]
  | cons item rest ih =>
    intro st
    simp only [cleanPass2]
    by_cases hc : st.any (fun e => cfg.sim item.text e) = true
    · rw [if_pos hc]
      exact List.Sublist.cons item (ih st)
    · rw [if_neg hc]
      exact List.Sublist.cons₂ item (ih (item.text :: st))

theorem cleanPass2_sim (cfg : CleanCfg) (l : List OutlineEntry) :
    ∀ seenTexts,
      (∀ e ∈ cleanPass2 cfg seenTexts l, ∀ t ∈ seenTexts,
        cfg.sim e.text t = false) ∧
      List.Pairwise (fun a b => cfg.sim b.text a.text = false)
        (cleanPass2 cfg seenTexts l) := by
  induction l with
  | nil =>
    intro st
    constructor
    · intro e he; simp [cleanPass2] at he
    · simp [cleanPass2]
  | cons item rest ih =>
    intro st
    simp only [cleanPass2]
    by_cases hc : st.any (fun e => cfg.sim item.text e) = true
    · rw [if_pos hc]; exact ih st
    · rw [if_neg hc]
      have hrec := ih (item.text :: st)
      have hany : ∀ t ∈ st, cfg.sim item.text t = false := by
        intro t ht
        have := List.any_eq_false.mp (Bool.not_eq_true _ ▸ hc) t ht
        exact Bool.not_eq_true _ ▸ this
      constructor
      · intro e he t ht
        rcases List.mem_cons.mp he with he1 | he1
        · subst he1; exact hany t ht
        · exact hrec.1 e he1 t (List.mem_cons_of_mem _ ht)
      · refine List.Pairwise.cons ?_ hrec.2
        intro b hb
        exact hrec.1 b hb item.text (List.mem_cons_self _ _)

theorem cleanPass2_id (cfg : CleanCfg) (l : List OutlineEntry) :
    ∀ seenTexts,
      List.Pairwise (fun a b => cfg.sim b.text a.text = false) l →
      (∀ e ∈ l, ∀ t ∈ seenTexts, cfg.sim e.text t = false) →
      cleanPass2 cfg seenTexts l = l := by
  induction l with
  | nil => intro st _ _; rfl
  | cons item rest ih =>
    intro st hsim hst
    simp only [cleanPass2]
    rw [if_neg (by
      rw [Bool.not_eq_true, List.any_eq_false]
      intro t ht
      simp [hst item (List.mem_cons_self item rest) t ht])]
    have hrest : cleanPass2 cfg (item.text :: st) rest = rest := by
      apply ih
      · exact (List.pairwise_cons.mp hsim).2
      · intro e he t ht
        rcases List.mem_cons.mp ht with ht1 | ht1
        · subst ht1
          exact (List.pairwise_cons.mp hsim).1 e he
        · exact hst e (List.mem_cons_of_mem _ he) t ht1
    rw [hrest]

theorem cleanedTitleStored_idem (t : Option String) :
    cleanedTitleStored (cleanedTitleStored t) = cleanedTitleStored t := by
  cases t with
  | none => rfl
  | some s =>
    by_cases hs : s = ""
    · subst hs; simp [cleanedTitleStored]
    · simp only [cleanedTitleStored, if_neg hs]
      by_cases hc : collapseWs s = ""
      · simp [hc]
      · simp [hc, collapseWs_idem]

theorem cleanedTitle_stored (t : Option String) :
    cleanedTitle (cleanedTitleStored t) = cleanedTitle t := by
  cases t with
  | none => rfl
  | some s =>
    by_cases hs : s = ""
    · subst hs; simp [cleanedTitleStored, cleanedTitle]
    · simp only [cleanedTitleStored, cleanedTitle, if_neg hs]
      by_cases hc : collapseWs s = ""
      · simp [hc]
      · simp [hc, collapseWs_idem]

theorem cleanedTitleNorm_stored (t : Option String) :
    cleanedTitleNorm (cleanedTitleStored t) = cleanedTitleNorm t := by
  unfold cleanedTitleNorm
  rw [cleanedTitle_stored]

/--
C4: the final cleaning pass of validate_and_clean_result is idempotent: for
every extraction result (title plus outline entries) and every choice of the
normalize/similarity/date predicates, applying the cleaning pass (title
normalization, title-similar entry removal, date/time-token removal, and the
two duplicate-elimination passes) twice yields the same result as applying
it once.
-/
theorem validateAndCleanResult_idem (cfg : CleanCfg) (r : ResultDict) :
    validateAndCleanResult cfg (validateAndCleanResult cfg r) =
      validateAndCleanResult cfg r := by
  have hp1 := cleanPass1_mem_ok cfg (cleanedTitle r.title)
    (cleanedTitleNorm r.title) r.outline [] []
  have hp1k := cleanPass1_keys cfg (cleanedTitle r.title)
    (cleanedTitleNorm r.title) r.outline [] []
  have hp2s := cleanPass2_sim cfg
    (cleanPass1 cfg (cleanedTitle r.title) (cleanedTitleNorm r.title) [] []
      r.outline) []
  have hsub := cleanPass2_sublist cfg
    (cleanPass1 cfg (cleanedTitle r.title) (cleanedTitleNorm r.title) [] []
      r.outline) []
  simp only [validateAndCleanResult]
  rw [cleanedTitleStored_idem, cleanedTitle_stored, cleanedTitleNorm_stored]
  have hid1 : cleanPass1 cfg (cleanedTitle r.title) (cleanedTitleNorm r.title)
      [] []
      (cleanPass2 cfg []
        (cleanPass1 cfg (cleanedTitle r.title) (cleanedTitleNorm r.title)
          [] [] r.outline)) =
      cleanPass2 cfg []
        (cleanPass1 cfg (cleanedTitle r.title) (cleanedTitleNorm r.title)
          [] [] r.outline) := by
    apply cleanPass1_id
    · intro e he
      exact hp1 e (hsub.subset he)
    · exact List.Pairwise.sublist hsub hp1k.2
    · exact hp2s.2
    · intro e _ hmem
      cases hmem
    · intro e _ t ht
      cases ht
  rw [hid1]
  have hid2 : cleanPass2 cfg []
      (cleanPass2 cfg []
        (cleanPass1 cfg (cleanedTitle r.title) (cleanedTitleNorm r.title)
          [] [] r.outline)) =
      cleanPass2 cfg []
        (cleanPass1 cfg (cleanedTitle r.title) (cleanedTitleNorm r.title)
          [] [] r.outline) := by
    apply cleanPass2_id
    · exact hp2s.2
    · intro e _ t ht
      cases ht
  rw [hid2]

/-! ## Hybrid retriever: tokenization, query enhancement, index build and
    search (hybrid_retriever.py) -/

/-- HybridRetriever.stop_words (lines 34-41). -/
def stopWords : List String :=
  ["the", "a", "an", "and", "or", "but", "in", "on", "at", "to", "for",
   "of", "with", "by", "is", "are", "was", "were", "be", "been", "being",
   "have", "has", "had", "do", "does", "did", "will", "would", "could",
   "should", "may", "might", "can", "this", "that", "these", "those",
   "it", "its", "they", "them", "their", "we", "us", "our", "you", "your",
   "he", "she", "his", "her", "him", "i", "me", "my", "myself"]

/-- A regex word character for the token pattern \b\w+\b. -/
def isWordChar (c : Char) : Bool := c.isAlphanum || c == '_'

/-- HybridRetriever.enhanced_tokenization (lines 90-95): lowercase, take
maximal word-character runs, drop stop words and tokens of length < 3. -/
def enhancedTokenization (text : String) : List String :=
  ((splitPred (fun c => !isWordChar c) (pyLower text)).filter
      (fun t => t ≠ "")).filter
    (fun t => t ∉ stopWords ∧ 2 < strLen t)

/-- HybridRetriever.weighted_text_representation (lines 125-169): heading
duplicated for emphasis plus content, with fixed keyword enrichments keyed
on filename substrings. -/
def weightedTextRepresentation (c : Chunk) : String :=
  let w := c.heading ++ " " ++ c.heading ++ " " ++ c.content
  let f := pyLower c.pdf_name
  if containsSub f "main" then w ++ " main dish recipe"
  else if containsSub f "side" then w ++ " side dish accompaniment"
  else if containsSub f "breakfast" then w ++ " breakfast meal morning"
  else if containsSub f "lunch" then w ++ " lunch meal midday"
  else if containsSub f "dinner" then w ++ " dinner meal evening"
  else if containsSub f "cities" then w ++ " city urban destination"
  else if containsSub f "hotels" then w ++ " accommodation lodging stay"
  else if containsSub f "restaurants" then w ++ " dining food cuisine"
  else if containsSub f "things to do" then w ++ " activities attractions sights"
  else if containsSub f "create" || containsSub f "convert" then
    w ++ " creation conversion setup"
  else if containsSub f "edit" then w ++ " editing modification change"
  else if containsSub f "export" then w ++ " exportation output"
  else if containsSub f "fill" || containsSub f "sign" then
    w ++ " form filling signature"
  else w

/-- HybridRetriever.query_expansions (lines 44-70), in dict insertion
order; the general domain has no expansions. -/
def queryExpansions : Domain → List (String × List String)
  | Domain.travel =>
    [("trip", ["vacation", "journey", "travel", "visit", "tour"]),
     ("hotel", ["accommodation", "lodging", "stay", "resort", "inn"]),
     ("restaurant", ["dining", "food", "cuisine", "meal", "eatery"]),
     ("attraction", ["sight", "landmark", "destination", "place", "spot"]),
     ("transport", ["transportation", "travel", "commute", "journey"])]
  | Domain.research =>
    [("study", ["research", "analysis", "investigation", "examination"]),
     ("method", ["approach", "technique", "procedure", "methodology"]),
     ("result", ["finding", "outcome", "conclusion", "discovery"]),
     ("data", ["information", "evidence", "statistics", "figures"])]
  | Domain.business =>
    [("form", ["document", "template", "application", "form", "paperwork"]),
     ("compliance", ["regulation", "policy", "requirement", "standard"]),
     ("process", ["procedure", "workflow", "system", "method"]),
     ("management", ["administration", "oversight", "supervision"])]
  | Domain.culinary =>
    [("recipe", ["dish", "meal", "cooking", "preparation"]),
     ("ingredient", ["component", "element", "item", "material"]),
     ("cooking", ["preparation", "making", "creating", "preparing"]),
     ("meal", ["dish", "course", "serving", "food"])]
  | Domain.general => []

/-- The domain keyword table of enhance_query (lines 102-107), in dict
insertion order. -/
def queryDomainKeywords : List (Domain × List String) :=
  [(Domain.travel,
     ["travel", "trip", "vacation", "tourist", "planner", "itinerary"]),
   (Domain.research,
     ["research", "study", "analysis", "investigation", "academic"]),
   (Domain.business,
     ["business", "professional", "hr", "compliance", "management"]),
   (Domain.culinary,
     ["food", "cooking", "recipe", "chef", "culinary", "menu"])]

/-- The domain detected from the lowercased query; first match in insertion
order wins, default general (lines 110-115). -/
def detectQueryDomain (query : String) : Domain :=
  match queryDomainKeywords.find?
      (fun pr => pr.2.any (fun kw => containsSub (pyLower query) kw)) with
  | some pr => pr.1
  | none => Domain.general

/-- HybridRetriever.enhance_query (lines 97-123): append the synonym lists
of the detected domain's trigger terms found in the lowercased query.  The
persona and task arguments are accepted but unused, as in the source. -/
def enhanceQuery (query persona task : String) : String :=
  (queryExpansions (detectQueryDomain query)).foldl
    (fun acc pr =>
      if containsSub (pyLower query) pr.1 then
        acc ++ " " ++ joinWith " " pr.2
      else acc)
    query

/-- The BM25Okapi index object: domain parameters and tokenized corpus. -/
structure BM25Okapi where
  k1 : ℚ
  b : ℚ
  corpus : List (List String)

/--
Modelled from the spec: the BM25Okapi constructor comes from the third-party
rank_bm25 library, whose code is not part of this repository; it computes the
average document length by dividing by the corpus size, so constructing an
index over an empty corpus raises ZeroDivisionError.  The spec records this
failure semantics: "Index build failure (e.g., empty chunk list passed to
BM25): surfaced to the caller as a distinct error condition, not silently
swallowed" (section 7).
-/
def bm25OkapiInit (k1 b : ℚ) (corpus : List (List String)) :
    Except String BM25Okapi :=
  if corpus.isEmpty then Except.error "ZeroDivisionError: division by zero"
  else Except.ok ⟨k1, b, corpus⟩

/--
The HybridRetriever object.  scoreDoc is the oracle for the rank_bm25
per-document scoring formula (get_scores returns one score per corpus
document), embedSims is the optional embedding backend returning the cosine
similarities of the encoded query against the chunk embeddings (None when
the backend is unavailable), and headingSim is the oracle for
similarity_score's SequenceMatcher ratio.
-/
structure HybridRetriever where
  domain : Domain
  chunks : List Chunk
  bm25 : Option BM25Okapi
  scoreDoc : List String → List String → ℚ
  embedSims : Option (String → List ℚ)
  headingSim : String → String → ℚ

/-- HybridRetriever.__init__ (lines 10-31): empty chunk list, no index. -/
def initRetriever (domain : Domain)
    (scoreDoc : List String → List String → ℚ)
    (embedSims : Option (String → List ℚ))
    (headingSim : String → String → ℚ) : HybridRetriever :=
  ⟨domain, [], none, scoreDoc, embedSims, headingSim⟩

/-- HybridRetriever.build_index (lines 201-231): tokenize the weighted
representation of every chunk and construct the BM25 index with the domain's
parameters; the constructor's failure propagates to the caller. -/
def buildIndex (r : HybridRetriever) (chunks : List Chunk) :
    Except String HybridRetriever :=
  (bm25OkapiInit (bm25Params r.domain).1 (bm25Params r.domain).2
      (chunks.map (fun c => enhancedTokenization (weightedTextRepresentation c)))).map
    (fun bm => { r with chunks := chunks, bm25 := some bm })

/-- build_hybrid_index (lines 325-329): construct a retriever and build its
index. -/
def buildHybridIndex (domain : Domain)
    (scoreDoc : List String → List String → ℚ)
    (embedSims : Option (String → List ℚ))
    (headingSim : String → String → ℚ) (chunks : List Chunk) :
    Except String HybridRetriever :=
  buildIndex (initRetriever domain scoreDoc embedSims headingSim) chunks

/-- One search result: a chunk copy annotated with rank and scores
(search_top_k lines 272-282). -/
structure RankedChunk where
  chunk : Chunk
  importance_rank : Nat
  hybrid_score : ℚ
  bm25_score : ℚ
  embedding_score : Option ℚ
  original_query : String
  enhanced_query : String
deriving Repr

/--
HybridRetriever.search_top_k (lines 233-284).  Raises ValueError if the
index was never built; computes BM25 scores for every corpus document,
normalizes them by the maximum — max(bm25_scores) itself raises ValueError
on an empty score list, which happens exactly when the corpus is empty —
optionally fuses with embedding similarities using the domain weights, and
returns the diversity-aware top-k chunks annotated with scores.
-/
def searchTopK (r : HybridRetriever) (query persona task : String) (k : Nat) :
    Except String (List RankedChunk) :=
  match r.bm25 with
  | none => Except.error "ValueError: Index not built. Call build_index() first."
  | some bm =>
    let enhancedQuery := enhanceQuery query persona task
    let queryTokens := enhancedTokenization enhancedQuery
    let bm25Scores := bm.corpus.map (fun d => r.scoreDoc d queryTokens)
    match hs : bm25Scores with
    | [] => Except.error "ValueError: max() arg is an empty sequence"
    | s :: ss =>
      let m := maxQ (s :: ss)
      let bm25N := if 0 < m then (s :: ss).map (fun x => x / m) else s :: ss
      let embedScores : Option (List ℚ) :=
        r.embedSims.map (fun f => f enhancedQuery)
      let hybridScores :=
        match embedScores with
        | some es =>
          if es ≠ [] then
            List.zipWith (fun bs es0 => fuseScore r.domain bs es0) bm25N es
          else bm25N
        | none => bm25N
      let topIdx := diverseTopK r.chunks hybridScores r.headingSim k
      Except.ok (topIdx.enum.map (fun pr =>
        ⟨r.chunks.getD pr.2 default, pr.1 + 1, hybridScores.getD pr.2 0,
          bm25N.getD pr.2 0,
          (match embedScores with
           | some es => if es ≠ [] then some (es.getD pr.2 0) else none
           | none => none),
          query, enhancedQuery⟩))

/--
C1 counterexample: building the index over the empty chunk list and then
searching does not return an empty result list without error — the build
itself fails (BM25 initialization divides by the corpus size), and the error
propagates.
-/
theorem buildThenSearch_empty_cex :
    (buildHybridIndex Domain.general (fun _ _ => 0) none (fun _ _ => 0)
        []).bind (fun r => searchTopK r "query" "persona" "task" 5) ≠
      Except.ok [] := by
  intro h
  exact Except.noConfusion h

/--
C1 amended: for every domain, BM25 scoring oracle, embedding backend,
similarity oracle, query, persona, task and k, building the retrieval index
over the empty chunk list fails with ZeroDivisionError raised inside BM25
initialization, and the error propagates through the build-then-search
pipeline instead of an empty result list being returned.
-/
theorem buildHybridIndex_empty_error (d : Domain)
    (scoreDoc : List String → List String → ℚ)
    (embedSims : Option (String → List ℚ))
    (headingSim : String → String → ℚ)
    (query persona task : String) (k : Nat) :
    (buildHybridIndex d scoreDoc embedSims headingSim []).bind
        (fun r => searchTopK r query persona task k) =
      Except.error "ZeroDivisionError: division by zero" := rfl

/-! ## Full outline extraction (PDFOutlineExtractor.extract_outline) -/

/-- One collected text element with context (extract_outline lines 411-435). -/
structure Element where
  text : String
  fontSize : ℚ
  flags : Nat
  y : ℚ
  x : ℚ
  page : Nat
deriving Repr

/-- The elements of one block of one page: every span with nonblank stripped
text, with the block bbox coordinates normalized by the page dimensions. -/
def blockElements (pageNum : Nat) (p : Page) (b : Block) : List Element :=
  match b.lines with
  | none => []
  | some lns =>
    (lns.map (fun ln => ln.spans.filterMap (fun sp =>
      if pyStrip sp.text ≠ "" then
        some ⟨pyStrip sp.text, sp.size, sp.flags, b.y0 / p.height,
          b.x0 / p.width, pageNum⟩
      else none))).flatten

/-- All text elements of the document in reading order.  The contextual
fields font_larger_than_prev/next and is_isolated computed at lines 437-447
are never read by detect_heading_level and are omitted. -/
def collectElements (doc : Doc) : List Element :=
  (doc.pages.enum.map (fun pr =>
    (pr.2.blocks.map (blockElements pr.1 pr.2)).flatten)).flatten

/-- Font sizes sampled from the first up-to-5 pages (positive sizes only). -/
def docSampleFontSizes (doc : Doc) : List ℚ :=
  ((doc.pages.take 5).map (fun p =>
    (p.blocks.map (fun b =>
      match b.lines with
      | none => []
      | some lns =>
        (lns.map (fun ln =>
          (ln.spans.filter (fun sp => decide (0 < sp.size))).map
            Span.size)).flatten)).flatten)).flatten

/-- PDFOutlineExtractor.calculate_average_font_size (lines 200-216):
average sampled size, or the fallback constant 12.0. -/
def calculateAverageFontSize (doc : Doc) : ℚ :=
  if (docSampleFontSizes doc).isEmpty then 12
  else (docSampleFontSizes doc).sum / ((docSampleFontSizes doc).length : ℚ)

/-- The regex predicates of detect_heading_level (lines 112-142 and
186-193), kept as function parameters of the embedding. -/
structure RegexEnv where
  headingPat : String → Bool
  h1ChapterPat : String → Bool
  h1CapsPat : String → Bool
  h2NumberPat : String → Bool
  h2RomanPat : String → Bool

/-- Python str.split() with no separator: whitespace runs, no empties. -/
def pySplitWords (s : String) : List String :=
  (splitPred Char.isWhitespace s).filter (fun t => t ≠ "")

/-- PDFOutlineExtractor.detect_heading_level (lines 96-198): the additive
heading score over font ratio, bold/italic flags, pattern match, left
alignment, word count and first-page bonus; score at least 4 makes a heading,
classified H1/H2/H3 by font ratio and the pattern predicates. -/
def detectHeadingLevel (env : RegexEnv) (text : String) (fontSize : ℚ)
    (fontFlags : Nat) (avgFontSize : ℚ) (xPosition : ℚ) (pageNum : Nat) :
    Option Level :=
  if pyStrip text = "" ∨ strLen (pyStrip text) < 2 then none
  else if 300 < strLen (pyStrip text) then none
  else
    let cleanText := pyStrip text
    let fontRatio := if 0 < avgFontSize then fontSize / avgFontSize else 1
    let score : Nat :=
      (if 3/2 ≤ fontRatio then 3
       else if 13/10 ≤ fontRatio then 2
       else if 11/10 ≤ fontRatio then 1
       else 0)
      + (if fontFlags &&& 16 ≠ 0 then 2 else 0)
      + (if fontFlags &&& 2 ≠ 0 then 1 else 0)
      + (if env.headingPat cleanText = true then 3 else 0)
      + (if xPosition < 1/10 then 1 else 0)
      + (if 1 ≤ (pySplitWords cleanText).length ∧
            (pySplitWords cleanText).length ≤ 20 then 1 else 0)
      + (if pageNum = 1 then 1 else 0)
    if 4 ≤ score then
      if 8/5 ≤ fontRatio ∨ env.h1ChapterPat cleanText = true ∨
          env.h1CapsPat cleanText = true then some Level.H1
      else if 13/10 ≤ fontRatio ∨ env.h2NumberPat cleanText = true ∨
          env.h2RomanPat cleanText = true then some Level.H2
      else some Level.H3
    else none

/--
The heading-detection loop of extract_outline (lines 450-474) with its
seen-headings deduplication on (level, normalized text, page) keys.  As in
the source call site (lines 454-461), the element's y position is passed
where detect_heading_level expects x_position, and the zero-based page
number is passed, so the first-page bonus fires for page index 1.
-/
def detectHeadingsLoop (env : RegexEnv) (avg : ℚ) :
    List Element → List (Level × String × Nat) → List OutlineEntry
  | [], _ => []
  | e :: rest, seen =>
    match detectHeadingLevel env e.text e.fontSize e.flags avg e.y e.page with
    | none => detectHeadingsLoop env avg rest seen
    | some lvl =>
      if (lvl, collapseWs (pyLower e.text), e.page) ∈ seen then
        detectHeadingsLoop env avg rest seen
      else
        ⟨lvl, e.text, (e.page : Int)⟩ ::
          detectHeadingsLoop env avg rest
            ((lvl, collapseWs (pyLower e.text), e.page) :: seen)

/-- Whether a page's text contains the "table of contents" marker.  The
source tests the regex table\s+of\s+contents against the page text and then
locates the marker line by substring; the embedding uses the per-line
substring test for both. -/
def pageHasTocMarker (p : Page) : Bool :=
  p.textLines.any (fun l => containsSub (pyLower l) "table of contents")

/-- The page lines after the line containing the marker (lines 261-265). -/
def linesAfterMarker : List String → List String
  | [] => []
  | l :: ls =>
    if containsSub (pyLower l) "table of contents" then ls
    else linesAfterMarker ls

/-- The textual-TOC scan over the first up-to-5 pages (lines 252-269): the
first page with the marker whose parsed entries are nonempty wins. -/
def scanTocPages : List Page → Option (List OutlineEntry)
  | [] => none
  | p :: ps =>
    if pageHasTocMarker p = true then
      match getOutlineFromToc (linesAfterMarker p.textLines) with
      | [] => scanTocPages ps
      | e :: es => some (e :: es)
    else scanTocPages ps

/-- PDFOutlineExtractor.detect_table_of_contents (lines 218-271): the
embedded TOC wins when the native outline is nonempty (even when all its
entries are filtered out, in which case None is returned); otherwise the
first up-to-5 pages are scanned for a textual TOC. -/
def detectTableOfContents (doc : Doc) : Option (List OutlineEntry) :=
  if doc.toc ≠ [] then
    match embeddedTocOutline doc.toc with
    | [] => none
    | e :: es => some (e :: es)
  else scanTocPages (doc.pages.take 5)

/-- Path(pdf_path).name: the last path component. -/
def fileName (path : String) : String :=
  (splitChar '/' path).getLastD ""

/--
The body of extract_outline's try block (lines 378-492): extract the title,
use the table of contents when one is detected, otherwise classify headings
per element and validate the hierarchy; either way run the final cleaning
pass.  Any error raised inside (opening happens before, title extraction can
raise IndexError) propagates as the Except error.
-/
def processDocument (cfg : CleanCfg) (env : RegexEnv) (doc : Doc) :
    Except String ResultDict := do
  let title ← extractTitle doc
  match detectTableOfContents doc with
  | some tocOutline =>
    pure (validateAndCleanResult cfg ⟨title, tocOutline⟩)
  | none =>
    pure (validateAndCleanResult cfg
      ⟨title,
        validateHierarchy
          (detectHeadingsLoop env (calculateAverageFontSize doc)
            (collectElements doc) [])⟩)

/--
PDFOutlineExtractor.extract_outline (lines 375-499): the whole pipeline runs
inside a try/except; on any exception the degraded result
\x7btitle: "Error processing <file name>", outline: []\x7d is returned.
openDoc models fitz.open, which fails on malformed or unopenable documents.
-/
def extractOutline (cfg : CleanCfg) (env : RegexEnv)
    (openDoc : String → Except String Doc) (pdfPath : String) : ResultDict :=
  match (openDoc pdfPath).bind (processDocument cfg env) with
  | Except.ok result => result
  | Except.error _ => ⟨some ("Error processing " ++ fileName pdfPath), []⟩

/--
C6: for every input path for which processing raises internally (the
document cannot be opened, or any later step fails), extract_outline does
not propagate the error past its boundary: it returns exactly
\x7btitle: "Error processing <file name>", outline: []\x7d.
-/
theorem extractOutline_error_boundary (cfg : CleanCfg) (env : RegexEnv)
    (openDoc : String → Except String Doc) (pdfPath : String) (e : String)
    (h : (openDoc pdfPath).bind (processDocument cfg env) = Except.error e) :
    extractOutline cfg env openDoc pdfPath =
      ⟨some ("Error processing " ++ fileName pdfPath), []⟩ := by
  unfold extractOutline
  rw [h]

/-- Witness for C6 at an unopenable concrete path. -/
theorem extractOutline_error_boundary_witness :
    extractOutline ⟨id, fun _ _ => false, fun _ => false⟩
        ⟨fun _ => false, fun _ => false, fun _ => false, fun _ => false,
          fun _ => false⟩
        (fun _ => Except.error "FileDataError: cannot open broken document")
        "docs/bad.pdf" =
      ⟨some "Error processing bad.pdf", []⟩ := by
  have h := extractOutline_error_boundary
    ⟨id, fun _ _ => false, fun _ => false⟩
    ⟨fun _ => false, fun _ => false, fun _ => false, fun _ => false,
      fun _ => false⟩
    (fun _ => Except.error "FileDataError: cannot open broken document")
    "docs/bad.pdf" "FileDataError: cannot open broken document" rfl
  exact h.trans (by decide)
